import Mathlib

/-!
Shallow embedding of `perf-script-analyze` (src/main.rs): a streaming sample
reader (`PerfSamples::next`) and a heuristic stack-sample classifier
(`SampleAnalyzer::classify`).  Text is modelled as `List Char` (the inputs of
interest are ASCII, where Rust byte lengths coincide with character counts).
Rust panics (`unwrap` failures, failed integer parses) are modelled by
`Option`: a `none` result stands for an aborted (panicking) computation.
-/

/-- Characters Rust's `char::is_whitespace` accepts (the Unicode
White_Space property). -/
def isRustWhitespace (c : Char) : Bool :=
  c = ' ' || c = '\t' || c = '\n' || c = '\x0b' || c = '\x0c' || c = '\r' ||
  c = '\u0085' || c = '\u00A0' || c = '\u1680' ||
  (0x2000 ≤ c.toNat && c.toNat ≤ 0x200A) ||
  c = '\u2028' || c = '\u2029' || c = '\u202F' || c = '\u205F' || c = '\u3000'

/-- Rust `str::split_whitespace`: the maximal runs of non-whitespace
characters, in order. -/
def splitWhitespace (s : List Char) : List (List Char) :=
  (s.splitOnP isRustWhitespace).filter (fun t => !t.isEmpty)

/-- Rust `BufRead::read_line`: split off the first line of the input,
including its `'\n'` terminator when one is present.  Returns the line read
and the remaining input; on empty input the line read is empty (EOF). -/
def readLine : List Char → List Char × List Char
  | [] => ([], [])
  | c :: rest =>
    if c = '\n' then ([c], rest)
    else
      let r := readLine rest
      (c :: r.1, r.2)

/-- Rust `str::split_inclusive('\n')`: the chunks of a string cut after each
newline, each chunk keeping its terminator. -/
def splitInclNl : List Char → List (List Char)
  | [] => []
  | c :: rest =>
    if c = '\n' then [c] :: splitInclNl rest
    else
      match splitInclNl rest with
      | [] => [[c]]
      | l :: ls => (c :: l) :: ls

/-- The per-line cleanup done by Rust `str::lines`: strip a trailing `'\n'`,
and then a trailing `'\r'` only when a `'\n'` was stripped. -/
def stripLineEnd (l : List Char) : List Char :=
  if l.getLast? = some '\n' then
    if l.dropLast.getLast? = some '\r' then l.dropLast.dropLast else l.dropLast
  else l

/-- Rust `str::lines`. -/
def rustLines (s : List Char) : List (List Char) :=
  (splitInclNl s).map stripLineEnd

/-- Rust `str::parse::<u32>`: an optional leading `'+'`, then one or more
ASCII digits, rejecting values that overflow a 32-bit unsigned integer. -/
def parseU32 (s : List Char) : Option Nat :=
  let digits := match s with
    | '+' :: rest => rest
    | _ => s
  if digits ≠ [] ∧ digits.all Char.isDigit = true then
    let n := digits.foldl (fun acc c => 10 * acc + (c.toNat - 48)) 0
    if n < 4294967296 then some n else none
  else none

/-- The `Sample` struct: borrowed views into the reader's buffer, modelled as
the corresponding character lists. -/
structure Sample where
  raw_sample_data : List Char
  header : List Char
  stack_trace : List Char
  last_stack_frame : Option (List Char)

deriving instance DecidableEq, Repr for Sample

/-- State produced by the line-reading loop in `PerfSamples::next`: the filled
buffer, the length of the last long line (`last_line_len`), the index one past
the last useful byte (`last_line_end`), and the unread remainder of the
input. -/
structure LoopResult where
  buffer : List Char
  last_line_len : Option Nat
  last_line_end : Nat
  rest : List Char

deriving instance DecidableEq, Repr for LoopResult

/-- The loop in `PerfSamples::next`: read lines into the buffer until a line
of length at most 1 (a bare terminator, or zero bytes at EOF) is read; record
the length of the most recent longer line.  Structured with explicit fuel so
that it computes by kernel reduction; `readLoop` supplies enough fuel, and the
fuel-0 fallback coincides with the loop's behaviour on exhausted input. -/
def readLoopF : Nat → List Char → List Char → Option Nat → LoopResult
  | 0, input, buffer, lll => ⟨buffer, lll, buffer.length, input⟩
  | fuel + 1, input, buffer, lll =>
    let r := readLine input
    if r.1.length ≤ 1 then
      ⟨buffer ++ r.1, lll, (buffer ++ r.1).length - r.1.length, r.2⟩
    else
      readLoopF fuel r.2 (buffer ++ r.1) (some r.1.length)

/-- The reading loop of `PerfSamples::next` (see `readLoopF`). -/
def readLoop (input buffer : List Char) (lll : Option Nat) : LoopResult :=
  readLoopF input.length input buffer lll

/-- `PerfSamples::next`: extract the next sample from the input stream.
`none` models `Ok(None)` (end of stream); `some (s, rest)` returns the decoded
sample together with the unconsumed remainder of the stream. -/
def PerfSamples.next (input : List Char) : Option (Sample × List Char) :=
  let hr := readLine input
  let header_len := hr.1.length
  if header_len = 0 then none
  else
    let r := readLoop hr.2 hr.1 none
    let last_stack_frame := r.last_line_len.map (fun last_line_len =>
      (r.buffer.take r.last_line_end).drop (r.last_line_end - last_line_len))
    some ({ raw_sample_data := r.buffer.take r.last_line_end,
            header := r.buffer.take header_len,
            stack_trace := (r.buffer.take r.last_line_end).drop header_len,
            last_stack_frame := last_stack_frame }, r.rest)

/-- The `SampleCategory` enum.  PIDs are natural numbers below `2 ^ 32`. -/
inductive SampleCategory where
  | Normal
  | NoStackTrace
  | TruncatedStack
  | JitCompiledBy (pid : Nat)
  | DeletedByPerf
  | BrokenByBadDSO (dso : List Char)
  | BrokenLastFrame
  | UnexpectedLastFunc (name : List Char)

deriving instance DecidableEq, Repr for SampleCategory

/-- The `SampleAnalyzer` struct: three sets of static strings, modelled as
lists (membership is all the code uses them for). -/
structure SampleAnalyzer where
  expected_root_funcs : List (List Char)
  expected_root_dsos : List (List Char)
  known_bad_dsos : List (List Char)

/-- Convert a string literal to the `List Char` representation used here. -/
def strL (s : String) : List Char := s.data

/-- `SampleAnalyzer::new`: the hard-coded configuration sets. -/
def SampleAnalyzer.new : SampleAnalyzer :=
  { expected_root_funcs :=
      [strL "_start", strL "native_irq_return_iret", strL "__libc_start_main",
       strL "_dl_start_user", strL "__clone"],
    expected_root_dsos :=
      [strL "([kernel.kallsyms])", strL "(/usr/bin/perf)"],
    known_bad_dsos :=
      [strL "(/usr/lib64/xorg/modules/drivers/nvidia_drv.so)",
       strL "(/usr/lib64/libGLX_nvidia.so.384.98)"] }

/-- The `([unknown])` DSO placeholder. -/
def unknownDso : List Char := strL "([unknown])"

/-- The `JIT_START` prefix constant. -/
def jitStart : List Char := strL "(/tmp/perf-"

/-- The `JIT_END` suffix constant. -/
def jitEnd : List Char := strL ".map)"

/-- The `(deleted))` marker constant. -/
def deletedMarker : List Char := strL "(deleted))"

/-- The lazy backward scan in `classify`: over the trace lines already
reversed (root frame first), take each frame's *last* whitespace token,
skip those equal to `([unknown])`, and stop at the first other one.
`none` models the panic of the per-frame `unwrap` on a token-less line;
`some none` means the scan exhausted the trace; `some (some d)` is the first
non-placeholder token found.  Frames beyond the stopping point are never
inspected, matching the laziness of Rust iterators. -/
def lastValidDso : List (List Char) → Option (Option (List Char))
  | [] => some none
  | frame :: rest =>
    match (splitWhitespace frame).getLast? with
    | none => none
    | some dso => if dso = unknownDso then lastValidDso rest else some (some dso)

/-- `SampleAnalyzer::classify`: the ordered decision list.  `none` models a
panic (fewer than 3 columns in the last frame, a failed JIT pid parse, or a
token-less line met by the backward scan). -/
def SampleAnalyzer.classify (self : SampleAnalyzer) (sample : Sample) :
    Option SampleCategory :=
  match sample.last_stack_frame with
  | none => some SampleCategory.NoStackTrace
  | some last_stack_frame =>
    match splitWhitespace last_stack_frame with
    | last_instruction_pointer :: last_function_name :: last_dso :: extra_columns =>
      let opt_deleted := extra_columns.head?
      if last_dso ∈ self.expected_root_dsos ∨
         last_function_name ∈ self.expected_root_funcs then
        some SampleCategory.Normal
      else if last_instruction_pointer.length % 8 = 0 ∧
              last_instruction_pointer.all (fun c => c == 'f') = true then
        some SampleCategory.TruncatedStack
      else if jitStart.isPrefixOf last_dso = true ∧
              jitEnd.isSuffixOf last_dso = true then
        match parseU32 ((last_dso.drop jitStart.length).take
            (last_dso.length - jitEnd.length - jitStart.length)) with
        | some pid => some (SampleCategory.JitCompiledBy pid)
        | none => none
      else if opt_deleted = some deletedMarker then
        some SampleCategory.DeletedByPerf
      else
        let fallback : Option SampleCategory :=
          if last_dso = unknownDso then some SampleCategory.BrokenLastFrame
          else some (SampleCategory.UnexpectedLastFunc last_function_name)
        match lastValidDso ((rustLines sample.stack_trace).reverse) with
        | none => none
        | some (some valid_dso) =>
          if valid_dso ∈ self.known_bad_dsos then
            some (SampleCategory.BrokenByBadDSO valid_dso)
          else fallback
        | some none => fallback
    | _ => none

/-- Length of the last line of a body of lines, defaulting to `lll` when the
body is empty: the value `last_line_len` holds after the reading loop has
consumed `body` starting from state `lll`. -/
def lastLenOf (body : List (List Char)) (lll : Option Nat) : Option Nat :=
  match body.getLast? with
  | some L => some L.length
  | none => lll

/-- A well-formed run of stack-trace lines for the reader: each line is
newline-terminated, at least 2 characters long (so it does not end the
record), and has no interior newline. -/
def LinesOk (body : List (List Char)) : Prop :=
  ∀ l ∈ body, 2 ≤ l.length ∧ ∃ c, l = c ++ ['\n'] ∧ '\n' ∉ c

/-- Reading one well-formed line: `readLine` returns exactly that line and the
rest of the input. -/
lemma readLine_line (c : List Char) (rest : List Char) (h : '\n' ∉ c) :
    readLine (c ++ '\n' :: rest) = (c ++ ['\n'], rest) := by
  induction c with
  | nil => simp [readLine]
  | cons x c ih =>
    have hx : x ≠ '\n' := by
      intro hx; exact h (hx ▸ List.mem_cons_self x c)
    have hc : '\n' ∉ c := fun hm => h (List.mem_cons_of_mem x hm)
    simp [readLine, hx, ih hc]

/-- The reading loop on exhausted input returns the buffer unchanged, with
`last_line_end` at the end of the buffer. -/
lemma readLoopF_nil (fuel : Nat) (buf : List Char) (lll : Option Nat) :
    readLoopF fuel [] buf lll = ⟨buf, lll, buf.length, []⟩ := by
  cases fuel with
  | zero => simp [readLoopF]
  | succ f => simp [readLoopF, readLine]

/-- Peeling one line off `lastLenOf`. -/
lemma lastLenOf_cons (L : List Char) (body : List (List Char))
    (lll : Option Nat) :
    lastLenOf (L :: body) lll = lastLenOf body (some L.length) := by
  cases body with
  | nil => simp [lastLenOf]
  | cons b bs =>
    simp only [lastLenOf, List.getLast?_cons_cons]
    cases h : (b :: bs).getLast? with
    | none =>
      rw [List.getLast?_eq_none_iff] at h
      exact absurd h (by simp)
    | some x => rfl

/-- The reading loop consuming a run of well-formed trace lines followed by a
blank-line separator: the lines are appended to the buffer, the separator is
consumed but excluded from the useful range, and `last_line_len` records the
last trace line. -/
lemma readLoopF_sep (body : List (List Char)) :
    ∀ (fuel : Nat) (buf : List Char) (lll : Option Nat) (rest : List Char),
      LinesOk body → body.flatten.length + rest.length + 1 ≤ fuel →
      readLoopF fuel (body.flatten ++ '\n' :: rest) buf lll =
        ⟨buf ++ body.flatten ++ ['\n'], lastLenOf body lll,
         (buf ++ body.flatten).length, rest⟩ := by
  induction body with
  | nil =>
    intro fuel buf lll rest _ hfuel
    cases fuel with
    | zero => omega
    | succ f =>
      simp only [List.flatten, List.nil_append, readLoopF, readLine, if_pos rfl]
      simp [lastLenOf]
  | cons L body ih =>
    intro fuel buf lll rest hok hfuel
    obtain ⟨hlen, c, hLc, hcnl⟩ := hok L (List.mem_cons_self L body)
    have hok' : LinesOk body := fun l hl => hok l (List.mem_cons_of_mem L hl)
    have hLlen : 2 ≤ L.length := hlen
    cases fuel with
    | zero =>
      exfalso
      have : 1 ≤ L.length := by omega
      simp only [List.flatten_cons, List.length_append] at hfuel
      omega
    | succ f =>
      have hinput : (L :: body).flatten ++ '\n' :: rest =
          c ++ '\n' :: (body.flatten ++ '\n' :: rest) := by
        simp [List.flatten_cons, hLc, List.append_assoc]
      have hread : readLine ((L :: body).flatten ++ '\n' :: rest) =
          (L, body.flatten ++ '\n' :: rest) := by
        rw [hinput, readLine_line c _ hcnl, hLc]
      have hnotshort : ¬ (L.length ≤ 1) := by omega
      simp only [readLoopF, hread, hnotshort, if_false]
      have hfuel' : body.flatten.length + rest.length + 1 ≤ f := by
        simp only [List.flatten_cons, List.length_append] at hfuel
        omega
      rw [ih f (buf ++ L) (some L.length) rest hok' hfuel']
      simp [lastLenOf_cons, List.flatten_cons, List.append_assoc]

/-- The reading loop consuming a run of well-formed trace lines followed by
end-of-stream: the final record is still bounded exactly, with
`last_line_end` at the end of the buffer. -/
lemma readLoopF_eof (body : List (List Char)) :
    ∀ (fuel : Nat) (buf : List Char) (lll : Option Nat),
      LinesOk body → body.flatten.length ≤ fuel →
      readLoopF fuel body.flatten buf lll =
        ⟨buf ++ body.flatten, lastLenOf body lll,
         (buf ++ body.flatten).length, []⟩ := by
  induction body with
  | nil =>
    intro fuel buf lll _ _
    simp [List.flatten, readLoopF_nil, lastLenOf]
  | cons L body ih =>
    intro fuel buf lll hok hfuel
    obtain ⟨hlen, c, hLc, hcnl⟩ := hok L (List.mem_cons_self L body)
    have hok' : LinesOk body := fun l hl => hok l (List.mem_cons_of_mem L hl)
    cases fuel with
    | zero =>
      exfalso
      simp only [List.flatten_cons, List.length_append] at hfuel
      omega
    | succ f =>
      have hinput : (L :: body).flatten = c ++ '\n' :: body.flatten := by
        simp [List.flatten_cons, hLc, List.append_assoc]
      have hread : readLine ((L :: body).flatten) = (L, body.flatten) := by
        rw [hinput, readLine_line c _ hcnl, hLc]
      have hnotshort : ¬ (L.length ≤ 1) := by omega
      simp only [readLoopF, hread, hnotshort, if_false]
      have hfuel' : body.flatten.length ≤ f := by
        simp only [List.flatten_cons, List.length_append] at hfuel
        omega
      rw [ih f (buf ++ L) (some L.length) hok' hfuel']
      simp [lastLenOf_cons, List.flatten_cons, List.append_assoc]

/-- The slice `buffer[end - n .. end]` picks out the last line when the useful
part of the buffer ends with it. -/
lemma drop_sub_length (X L : List Char) :
    (X ++ L).drop ((X ++ L).length - L.length) = L := by
  have h : (X ++ L).length - L.length = X.length := by
    simp [List.length_append]
  rw [h, List.drop_left]

/-- One full record followed by a blank-line separator: `PerfSamples.next`
returns the record's header and trace lines exactly, consumes the separator
without including it, and leaves the rest of the stream untouched. -/
lemma next_record_sep (hc : List Char) (body : List (List Char))
    (rest : List Char) (hhc : '\n' ∉ hc) (hbody : LinesOk body) :
    PerfSamples.next ((hc ++ ['\n']) ++ body.flatten ++ '\n' :: rest) =
      some (⟨(hc ++ ['\n']) ++ body.flatten, hc ++ ['\n'], body.flatten,
             body.getLast?⟩, rest) := by
  have hread : readLine ((hc ++ ['\n']) ++ body.flatten ++ '\n' :: rest) =
      (hc ++ ['\n'], body.flatten ++ '\n' :: rest) := by
    have h1 : (hc ++ ['\n']) ++ body.flatten ++ '\n' :: rest =
        hc ++ '\n' :: (body.flatten ++ '\n' :: rest) := by
      simp
    rw [h1, readLine_line hc _ hhc]
  have hloop := readLoopF_sep body (body.flatten ++ '\n' :: rest).length
      (hc ++ ['\n']) none rest hbody
      (by simp only [List.length_append, List.length_cons]; omega)
  simp only [PerfSamples.next, hread, readLoop, hloop]
  have hne : ¬ ((hc ++ ['\n']).length = 0) := by simp
  rw [if_neg hne]
  have hraw : ((hc ++ ['\n']) ++ body.flatten ++ ['\n']).take
      ((hc ++ ['\n']) ++ body.flatten).length = (hc ++ ['\n']) ++ body.flatten :=
    List.take_left _ _
  have hhead : ((hc ++ ['\n']) ++ body.flatten ++ ['\n']).take
      (hc ++ ['\n']).length = hc ++ ['\n'] := by
    rw [List.append_assoc]
    exact List.take_left _ _
  have htrace : ((hc ++ ['\n']) ++ body.flatten).drop (hc ++ ['\n']).length =
      body.flatten := List.drop_left _ _
  congr 1
  congr 1
  rw [hraw]
  congr 1
  cases hB : body.getLast? with
    | none =>
      have hbe : body = [] := by
        rwa [List.getLast?_eq_none_iff] at hB
      subst hbe
      simp [lastLenOf]
    | some L =>
      have hBne : body ≠ [] := by
        intro h
        subst h
        simp at hB
      have hL : L = body.getLast hBne := by
        have h2 := List.getLast?_eq_getLast body hBne
        rw [hB] at h2
        exact Option.some.inj h2
      have hsplit : body.flatten = (body.dropLast).flatten ++ L := by
        conv_lhs => rw [← List.dropLast_append_getLast hBne]
        simp [hL]
      simp only [lastLenOf, hB, Option.map_some']
      rw [hsplit, ← List.append_assoc (hc ++ ['\n']) body.dropLast.flatten L,
        drop_sub_length ((hc ++ ['\n']) ++ body.dropLast.flatten) L]

/-- One final record terminated by end-of-stream instead of a separator:
`PerfSamples.next` still returns the complete record, bounded exactly as in
the separator case. -/
lemma next_record_eof (hc : List Char) (body : List (List Char))
    (hhc : '\n' ∉ hc) (hbody : LinesOk body) :
    PerfSamples.next ((hc ++ ['\n']) ++ body.flatten) =
      some (⟨(hc ++ ['\n']) ++ body.flatten, hc ++ ['\n'], body.flatten,
             body.getLast?⟩, []) := by
  have hread : readLine ((hc ++ ['\n']) ++ body.flatten) =
      (hc ++ ['\n'], body.flatten) := by
    have h1 : (hc ++ ['\n']) ++ body.flatten = hc ++ '\n' :: body.flatten := by
      simp
    rw [h1, readLine_line hc _ hhc]
  have hloop := readLoopF_eof body (body.flatten).length
      (hc ++ ['\n']) none hbody (le_refl _)
  simp only [PerfSamples.next, hread, readLoop, hloop]
  have hne : ¬ ((hc ++ ['\n']).length = 0) := by simp
  rw [if_neg hne]
  have hraw : ((hc ++ ['\n']) ++ body.flatten).take
      ((hc ++ ['\n']) ++ body.flatten).length = (hc ++ ['\n']) ++ body.flatten :=
    List.take_length _
  have hhead : ((hc ++ ['\n']) ++ body.flatten).take
      (hc ++ ['\n']).length = hc ++ ['\n'] := List.take_left _ _
  have htrace : ((hc ++ ['\n']) ++ body.flatten).drop (hc ++ ['\n']).length =
      body.flatten := List.drop_left _ _
  congr 1
  congr 1
  rw [hraw]
  congr 1
  cases hB : body.getLast? with
    | none =>
      have hbe : body = [] := by
        rwa [List.getLast?_eq_none_iff] at hB
      subst hbe
      simp [lastLenOf]
    | some L =>
      have hBne : body ≠ [] := by
        intro h
        subst h
        simp at hB
      have hL : L = body.getLast hBne := by
        have h2 := List.getLast?_eq_getLast body hBne
        rw [hB] at h2
        exact Option.some.inj h2
      have hsplit : body.flatten = (body.dropLast).flatten ++ L := by
        conv_lhs => rw [← List.dropLast_append_getLast hBne]
        simp [hL]
      simp only [lastLenOf, hB, Option.map_some']
      rw [hsplit, ← List.append_assoc (hc ++ ['\n']) body.dropLast.flatten L,
        drop_sub_length ((hc ++ ['\n']) ++ body.dropLast.flatten) L]

/-- Invariant of the reading loop, for arbitrary (not necessarily
well-formed) input: the buffer only grows, and `last_line_end` lies between
the initial buffer length and the final buffer length. -/
lemma readLoopF_inv (fuel : Nat) :
    ∀ (input buf : List Char) (lll : Option Nat),
      (∃ ext, (readLoopF fuel input buf lll).buffer = buf ++ ext) ∧
      buf.length ≤ (readLoopF fuel input buf lll).last_line_end ∧
      (readLoopF fuel input buf lll).last_line_end ≤
        (readLoopF fuel input buf lll).buffer.length := by
  induction fuel with
  | zero =>
    intro input buf lll
    exact ⟨⟨[], by simp [readLoopF]⟩, by simp [readLoopF], by simp [readLoopF]⟩
  | succ f ih =>
    intro input buf lll
    simp only [readLoopF]
    split
    · refine ⟨⟨(readLine input).1, rfl⟩, ?_, ?_⟩ <;>
        simp [List.length_append]
    · obtain ⟨⟨ext, hb⟩, h1, h2⟩ :=
        ih (readLine input).2 (buf ++ (readLine input).1)
          (some (readLine input).1.length)
      refine ⟨⟨(readLine input).1 ++ ext, ?_⟩, ?_, h2⟩
      · rw [hb, List.append_assoc]
      · calc buf.length ≤ (buf ++ (readLine input).1).length := by simp
          _ ≤ _ := h1

/-- When every frame handed to the backward scan has at least one whitespace
token, the scan cannot hit the token-less `unwrap` panic. -/
lemma lastValidDso_total (frames : List (List Char))
    (h : ∀ fr ∈ frames, splitWhitespace fr ≠ []) :
    lastValidDso frames ≠ none := by
  induction frames with
  | nil => simp [lastValidDso]
  | cons fr rest ih =>
    have hfr := h fr (List.mem_cons_self fr rest)
    simp only [lastValidDso]
    cases hsw : (splitWhitespace fr).getLast? with
    | none =>
      rw [List.getLast?_eq_none_iff] at hsw
      exact absurd hsw hfr
    | some dso =>
      by_cases hu : dso = unknownDso
      · simp only [hu, if_pos rfl]
        exact ih (fun l hl => h l (List.mem_cons_of_mem fr hl))
      · simp [hu]

/-- C2: for every `Sample` successfully returned by `PerfSamples.next`, the
concatenation of `header` and `stack_trace` equals `raw_sample_data` exactly,
with `header` the prefix of `raw_sample_data` of header length and
`stack_trace` the remaining suffix. -/
theorem C2_roundtrip_slicing (input : List Char) (s : Sample)
    (rest : List Char) (h : PerfSamples.next input = some (s, rest)) :
    s.header ++ s.stack_trace = s.raw_sample_data ∧
    s.header = s.raw_sample_data.take s.header.length ∧
    s.stack_trace = s.raw_sample_data.drop s.header.length := by
  simp only [PerfSamples.next, readLoop] at h
  by_cases h0 : (readLine input).1.length = 0
  · rw [if_pos h0] at h
    cases h
  · rw [if_neg h0] at h
    obtain ⟨-, hle, hlen⟩ := readLoopF_inv (readLine input).2.length
      (readLine input).2 (readLine input).1 none
    injection h with h'
    injection h' with hs hrest
    subst hs
    set r := readLoopF (readLine input).2.length (readLine input).2
      (readLine input).1 none with hr
    have hBl : (readLine input).1.length ≤ r.buffer.length := le_trans hle hlen
    have htt : (r.buffer.take r.last_line_end).take (readLine input).1.length =
        r.buffer.take (readLine input).1.length := by
      rw [List.take_take, min_eq_left hle]
    have hlen' : (r.buffer.take (readLine input).1.length).length =
        (readLine input).1.length := List.length_take_of_le hBl
    refine ⟨?_, ?_, ?_⟩
    · show r.buffer.take (readLine input).1.length ++
        (r.buffer.take r.last_line_end).drop (readLine input).1.length =
        r.buffer.take r.last_line_end
      rw [← htt, List.take_append_drop]
    · show r.buffer.take (readLine input).1.length =
        (r.buffer.take r.last_line_end).take
          (r.buffer.take (readLine input).1.length).length
      rw [hlen', htt]
    · show (r.buffer.take r.last_line_end).drop (readLine input).1.length =
        (r.buffer.take r.last_line_end).drop
          (r.buffer.take (readLine input).1.length).length
      rw [hlen']

/-- Witness for C2 at the concrete record `"H\nA B C\n\n"`. -/
theorem C2_roundtrip_slicing_witness :
    strL "H\n" ++ strL "A B C\n" = strL "H\nA B C\n" ∧
    strL "H\n" = (strL "H\nA B C\n").take (strL "H\n").length ∧
    strL "A B C\n" = (strL "H\nA B C\n").drop (strL "H\n").length :=
  C2_roundtrip_slicing (strL "H\nA B C\n\n")
    ⟨strL "H\nA B C\n", strL "H\n", strL "A B C\n", some (strL "A B C\n")⟩
    [] (by decide)

/-- C3: a last frame whose function name is in the expected-root-function set
or whose DSO is in the expected-root-DSO set classifies as `Normal`; the
expected-root check precedes every later check, including truncation. -/
theorem C3_expected_root_normal (a : SampleAnalyzer) (s : Sample)
    (l ip fn dso : List Char) (rest : List (List Char))
    (hl : s.last_stack_frame = some l)
    (hcols : splitWhitespace l = ip :: fn :: dso :: rest)
    (hroot : fn ∈ a.expected_root_funcs ∨ dso ∈ a.expected_root_dsos) :
    a.classify s = some SampleCategory.Normal := by
  simp only [SampleAnalyzer.classify, hl, hcols]
  rcases hroot with hfn | hdso
  · rw [if_pos (Or.inr hfn)]
  · rw [if_pos (Or.inl hdso)]

/-- Witness for C3: an expected root function together with an instruction
pointer of sixteen `f` characters still classifies as `Normal`. -/
theorem C3_expected_root_normal_witness :
    SampleAnalyzer.new.classify
      ⟨strL "H\nffffffffffffffff _start (/bin/app)\n", strL "H\n",
       strL "ffffffffffffffff _start (/bin/app)\n",
       some (strL "ffffffffffffffff _start (/bin/app)\n")⟩ =
      some SampleCategory.Normal :=
  C3_expected_root_normal SampleAnalyzer.new _
    (strL "ffffffffffffffff _start (/bin/app)\n") (strL "ffffffffffffffff")
    (strL "_start") (strL "(/bin/app)") [] rfl (by decide)
    (Or.inl (by decide))

/-- C5: once the expected-root check has failed, the sample classifies as
`TruncatedStack` exactly when the instruction pointer's length is a multiple
of 8 and every character is `'f'`. -/
theorem C5_truncated_stack_iff (a : SampleAnalyzer) (s : Sample)
    (l ip fn dso : List Char) (rest : List (List Char))
    (hl : s.last_stack_frame = some l)
    (hcols : splitWhitespace l = ip :: fn :: dso :: rest)
    (hfn : fn ∉ a.expected_root_funcs) (hdso : dso ∉ a.expected_root_dsos) :
    a.classify s = some SampleCategory.TruncatedStack ↔
      (ip.length % 8 = 0 ∧ ip.all (fun c => c == 'f') = true) := by
  simp only [SampleAnalyzer.classify, hl, hcols]
  rw [if_neg (by rintro (h | h) <;> [exact hdso h; exact hfn h])]
  by_cases htr : ip.length % 8 = 0 ∧ ip.all (fun c => c == 'f') = true
  · rw [if_pos htr]
    simp [htr]
  · rw [if_neg htr]
    constructor
    · intro hcontra
      exfalso
      split at hcontra
      · split at hcontra <;> simp at hcontra
      · split at hcontra
        · simp at hcontra
        · split at hcontra
          · simp at hcontra
          · split at hcontra
            · simp at hcontra
            · split at hcontra <;> simp at hcontra
          · split at hcontra <;> simp at hcontra
    · intro h
      exact absurd h htr

/-- Witness for C5: eight `f`s classify as `TruncatedStack`, seven do not. -/
theorem C5_truncated_stack_iff_witness :
    SampleAnalyzer.new.classify
      ⟨strL "H\nffffffff main (/bin/app)\n", strL "H\n",
       strL "ffffffff main (/bin/app)\n",
       some (strL "ffffffff main (/bin/app)\n")⟩ =
      some SampleCategory.TruncatedStack ∧
    SampleAnalyzer.new.classify
      ⟨strL "H\nfffffff main (/bin/app)\n", strL "H\n",
       strL "fffffff main (/bin/app)\n",
       some (strL "fffffff main (/bin/app)\n")⟩ ≠
      some SampleCategory.TruncatedStack := by
  constructor
  · exact (C5_truncated_stack_iff SampleAnalyzer.new _
      (strL "ffffffff main (/bin/app)\n") (strL "ffffffff") (strL "main")
      (strL "(/bin/app)") [] rfl (by decide) (by decide) (by decide)).mpr
      (by decide)
  · intro h
    exact absurd ((C5_truncated_stack_iff SampleAnalyzer.new _
      (strL "fffffff main (/bin/app)\n") (strL "fffffff") (strL "main")
      (strL "(/bin/app)") [] rfl (by decide) (by decide) (by decide)).mp h).1
      (by decide)

/-- C6: with no earlier check matching, a last-frame DSO carrying the JIT
prefix and suffix classifies as `JitCompiledBy pid` when the embedded
substring parses as an unsigned integer, and is a malformed-input failure
(modelled as `none`) when it does not. -/
theorem C6_jit_classification (a : SampleAnalyzer) (s : Sample)
    (l ip fn dso : List Char) (rest : List (List Char))
    (hl : s.last_stack_frame = some l)
    (hcols : splitWhitespace l = ip :: fn :: dso :: rest)
    (hfn : fn ∉ a.expected_root_funcs) (hdso : dso ∉ a.expected_root_dsos)
    (htr : ¬ (ip.length % 8 = 0 ∧ ip.all (fun c => c == 'f') = true))
    (hpre : jitStart.isPrefixOf dso = true)
    (hsuf : jitEnd.isSuffixOf dso = true) :
    (∀ pid, parseU32 ((dso.drop jitStart.length).take
        (dso.length - jitEnd.length - jitStart.length)) = some pid →
      a.classify s = some (SampleCategory.JitCompiledBy pid)) ∧
    (parseU32 ((dso.drop jitStart.length).take
        (dso.length - jitEnd.length - jitStart.length)) = none →
      a.classify s = none) := by
  simp only [SampleAnalyzer.classify, hl, hcols]
  rw [if_neg (by rintro (h | h) <;> [exact hdso h; exact hfn h]),
    if_neg htr, if_pos ⟨hpre, hsuf⟩]
  constructor
  · intro pid hp
    rw [hp]
  · intro hp
    rw [hp]

/-- Witness for C6: `(/tmp/perf-4242.map)` yields `JitCompiledBy 4242`, and a
JIT-shaped DSO with a non-numeric pid substring aborts. -/
theorem C6_jit_classification_witness :
    SampleAnalyzer.new.classify
      ⟨strL "H\naa bb (/tmp/perf-4242.map)\n", strL "H\n",
       strL "aa bb (/tmp/perf-4242.map)\n",
       some (strL "aa bb (/tmp/perf-4242.map)\n")⟩ =
      some (SampleCategory.JitCompiledBy 4242) ∧
    SampleAnalyzer.new.classify
      ⟨strL "H\naa bb (/tmp/perf-x.map)\n", strL "H\n",
       strL "aa bb (/tmp/perf-x.map)\n",
       some (strL "aa bb (/tmp/perf-x.map)\n")⟩ = none := by
  constructor
  · exact (C6_jit_classification SampleAnalyzer.new _
      (strL "aa bb (/tmp/perf-4242.map)\n") (strL "aa") (strL "bb")
      (strL "(/tmp/perf-4242.map)") [] rfl (by decide) (by decide) (by decide)
      (by decide) (by decide) (by decide)).1 4242 (by decide)
  · exact (C6_jit_classification SampleAnalyzer.new _
      (strL "aa bb (/tmp/perf-x.map)\n") (strL "aa") (strL "bb")
      (strL "(/tmp/perf-x.map)") [] rfl (by decide) (by decide) (by decide)
      (by decide) (by decide) (by decide)).2 (by decide)

/-- C4: with no earlier check matching, the backward scan over the trace
(root end first, skipping `([unknown])` tokens) classifies the sample as
`BrokenByBadDSO v` when it stops at a token `v` in the known-bad-DSO set. -/
theorem C4_bad_dso_backward_scan (a : SampleAnalyzer) (s : Sample)
    (l ip fn dso v : List Char) (rest : List (List Char))
    (hl : s.last_stack_frame = some l)
    (hcols : splitWhitespace l = ip :: fn :: dso :: rest)
    (hfn : fn ∉ a.expected_root_funcs) (hdso : dso ∉ a.expected_root_dsos)
    (htr : ¬ (ip.length % 8 = 0 ∧ ip.all (fun c => c == 'f') = true))
    (hjit : ¬ (jitStart.isPrefixOf dso = true ∧ jitEnd.isSuffixOf dso = true))
    (hdel : rest.head? ≠ some deletedMarker)
    (hscan : lastValidDso ((rustLines s.stack_trace).reverse) = some (some v))
    (hbad : v ∈ a.known_bad_dsos) :
    a.classify s = some (SampleCategory.BrokenByBadDSO v) := by
  simp only [SampleAnalyzer.classify, hl, hcols]
  rw [if_neg (by rintro (h | h) <;> [exact hdso h; exact hfn h]),
    if_neg htr, if_neg hjit, if_neg hdel]
  simp only [hscan]
  rw [if_pos hbad]

/-- Witness for C4: the trace `[DSO=A, DSO=([unknown]), DSO=KnownBad]` with
the root frame last classifies as `BrokenByBadDSO KnownBad`. -/
theorem C4_bad_dso_backward_scan_witness :
    SampleAnalyzer.new.classify
      ⟨strL "H\naa fA (/bin/a)\nbb fU ([unknown])\ncc fK (/usr/lib64/xorg/modules/drivers/nvidia_drv.so)\n",
       strL "H\n",
       strL "aa fA (/bin/a)\nbb fU ([unknown])\ncc fK (/usr/lib64/xorg/modules/drivers/nvidia_drv.so)\n",
       some (strL "cc fK (/usr/lib64/xorg/modules/drivers/nvidia_drv.so)\n")⟩ =
      some (SampleCategory.BrokenByBadDSO
        (strL "(/usr/lib64/xorg/modules/drivers/nvidia_drv.so)")) :=
  C4_bad_dso_backward_scan SampleAnalyzer.new _
    (strL "cc fK (/usr/lib64/xorg/modules/drivers/nvidia_drv.so)\n")
    (strL "cc") (strL "fK")
    (strL "(/usr/lib64/xorg/modules/drivers/nvidia_drv.so)")
    (strL "(/usr/lib64/xorg/modules/drivers/nvidia_drv.so)") [] rfl
    (by decide) (by decide) (by decide) (by decide) (by decide) (by decide)
    (by decide) (by decide)

/-- C10: the backward scan tests the *last* whitespace token of each trace
line, not the third (DSO) field: a four-token frame is represented by its
trailing marker token, so its actual DSO name is invisible to the scan.  In
the concrete conjunct, a trace containing a known-bad DSO in the third field
of a frame whose last token is `(deleted))` classifies as `BrokenLastFrame`
instead of `BrokenByBadDSO`. -/
theorem C10_scan_uses_last_token (frame : List Char)
    (frames : List (List Char)) (ip fn dso m : List Char)
    (hcols : splitWhitespace frame = [ip, fn, dso, m])
    (hm : m ≠ unknownDso) :
    lastValidDso (frame :: frames) = some (some m) ∧
    SampleAnalyzer.new.classify
      ⟨strL "H\nx1 f1 (/usr/lib64/xorg/modules/drivers/nvidia_drv.so) (deleted))\naa bb ([unknown])\n",
       strL "H\n",
       strL "x1 f1 (/usr/lib64/xorg/modules/drivers/nvidia_drv.so) (deleted))\naa bb ([unknown])\n",
       some (strL "aa bb ([unknown])\n")⟩ =
      some SampleCategory.BrokenLastFrame := by
  constructor
  · simp only [lastValidDso, hcols]
    have hlast : ([ip, fn, dso, m] : List (List Char)).getLast? = some m := rfl
    rw [hlast]
    simp [hm]
  · decide

/-- Witness for C10 at a concrete four-token frame with a `(deleted))`
marker. -/
theorem C10_scan_uses_last_token_witness :
    lastValidDso [strL "aa bb (/bin/x) (deleted))"] =
      some (some (strL "(deleted))")) ∧
    SampleAnalyzer.new.classify
      ⟨strL "H\nx1 f1 (/usr/lib64/xorg/modules/drivers/nvidia_drv.so) (deleted))\naa bb ([unknown])\n",
       strL "H\n",
       strL "x1 f1 (/usr/lib64/xorg/modules/drivers/nvidia_drv.so) (deleted))\naa bb ([unknown])\n",
       some (strL "aa bb ([unknown])\n")⟩ =
      some SampleCategory.BrokenLastFrame :=
  C10_scan_uses_last_token (strL "aa bb (/bin/x) (deleted))") []
    (strL "aa") (strL "bb") (strL "(/bin/x)") (strL "(deleted))")
    (by decide) (by decide)

/-- C1, counterexample to the claim as stated: a reader-produced sample whose
last frame has exactly 3 whitespace tokens and no JIT-shaped DSO, yet whose
classification aborts (`none`), because the backward scan meets a
whitespace-only trace line after skipping the `([unknown])` root token. -/
theorem C1_whitespace_line_counterexample :
    PerfSamples.next (strL "H\n  \na b ([unknown])\n\n") =
      some (⟨strL "H\n  \na b ([unknown])\n", strL "H\n",
             strL "  \na b ([unknown])\n",
             some (strL "a b ([unknown])\n")⟩, []) ∧
    (splitWhitespace (strL "a b ([unknown])\n")).length = 3 ∧
    jitStart.isPrefixOf (strL "([unknown])") = false ∧
    SampleAnalyzer.new.classify
      ⟨strL "H\n  \na b ([unknown])\n", strL "H\n",
       strL "  \na b ([unknown])\n", some (strL "a b ([unknown])\n")⟩ =
      none := by
  decide

/-- C1, amended: when the last frame line splits into at least 3 tokens, the
JIT pid parses whenever the JIT prefix/suffix both match, and every
stack-trace line has at least one whitespace token, classification succeeds
with exactly one `SampleCategory`; a last frame line with fewer than 3 tokens
is a malformed-input failure (`none`), not a category. -/
theorem C1_classify_total (a : SampleAnalyzer) (s : Sample) (l : List Char)
    (hl : s.last_stack_frame = some l) :
    ((splitWhitespace l).length < 3 → a.classify s = none) ∧
    (∀ ip fn dso rest, splitWhitespace l = ip :: fn :: dso :: rest →
      (jitStart.isPrefixOf dso = true → jitEnd.isSuffixOf dso = true →
        (parseU32 ((dso.drop jitStart.length).take
          (dso.length - jitEnd.length - jitStart.length))).isSome = true) →
      (∀ fr ∈ rustLines s.stack_trace, splitWhitespace fr ≠ []) →
      (a.classify s).isSome = true) := by
  constructor
  · intro hlen
    rcases hsw : splitWhitespace l with _ | ⟨a1, _ | ⟨a2, _ | ⟨a3, r⟩⟩⟩
    · simp [SampleAnalyzer.classify, hl, hsw]
    · simp [SampleAnalyzer.classify, hl, hsw]
    · simp [SampleAnalyzer.classify, hl, hsw]
    · rw [hsw] at hlen
      simp at hlen
      omega
  · intro ip fn dso rest hcols hjit hscan
    simp only [SampleAnalyzer.classify, hl, hcols]
    split
    · simp
    · split
      · simp
      · split
        · next hjitcond =>
          split
          · simp
          · next hparse =>
            have hsome := hjit hjitcond.1 hjitcond.2
            rw [hparse] at hsome
            simp at hsome
        · split
          · simp
          · split
            · next hnone =>
              exfalso
              refine lastValidDso_total ((rustLines s.stack_trace).reverse)
                ?_ hnone
              intro fr hfr
              exact hscan fr (List.mem_reverse.mp hfr)
            · split
              · simp
              · split <;> simp
            · split <;> simp

/-- Witness for C1 at a concrete well-formed sample. -/
theorem C1_classify_total_witness :
    (SampleAnalyzer.new.classify
      ⟨strL "H\naa bb cc\n", strL "H\n", strL "aa bb cc\n",
       some (strL "aa bb cc\n")⟩).isSome = true :=
  (C1_classify_total SampleAnalyzer.new
    ⟨strL "H\naa bb cc\n", strL "H\n", strL "aa bb cc\n",
     some (strL "aa bb cc\n")⟩ (strL "aa bb cc\n") rfl).2
    (strL "aa") (strL "bb") (strL "cc") [] (by decide)
    (fun hpre _ => absurd hpre (by decide)) (by decide)

/-- C7, counterexample to the claim as stated: a blank line with the
multi-byte terminator `"\r\n"` (its content excluding the terminator is
empty, as the first conjunct shows) does *not* terminate the record: it is
read into the stack trace, and even becomes the last stack frame. -/
theorem C7_crlf_counterexample :
    stripLineEnd (strL "\r\n") = [] ∧
    PerfSamples.next (strL "H\n\r\n\n") =
      some (⟨strL "H\n\r\n", strL "H\n", strL "\r\n",
             some (strL "\r\n")⟩, []) := by
  decide

/-- C7, amended: the reader terminates a record at the first line whose total
length (terminator included) is at most 1 — a blank line with a single-byte
terminator, or end-of-stream — without including that line in the stack
trace; every earlier line of length at least 2 (including a blank line with
a multi-byte terminator) is read into the stack trace as a frame line. -/
theorem C7_record_termination (hc : List Char) (body : List (List Char))
    (rest : List Char) (hhc : '\n' ∉ hc) (hbody : LinesOk body) :
    PerfSamples.next ((hc ++ ['\n']) ++ body.flatten ++ '\n' :: rest) =
      some (⟨(hc ++ ['\n']) ++ body.flatten, hc ++ ['\n'], body.flatten,
             body.getLast?⟩, rest) :=
  next_record_sep hc body rest hhc hbody

/-- Witness for C7 at a record whose only trace line is the blank CRLF line
`"\r\n"`: the line is kept in the trace rather than ending the record. -/
theorem C7_record_termination_witness :
    PerfSamples.next ((strL "H" ++ ['\n']) ++ [strL "\r\n"].flatten ++
        '\n' :: []) =
      some (⟨(strL "H" ++ ['\n']) ++ [strL "\r\n"].flatten, strL "H" ++ ['\n'],
             [strL "\r\n"].flatten, [strL "\r\n"].getLast?⟩, []) :=
  C7_record_termination (strL "H") [strL "\r\n"] [] (by decide)
    (by
      intro l hl
      simp only [List.mem_singleton] at hl
      subst hl
      exact ⟨by decide, ['\r'], by decide, by decide⟩)

/-- C8: a record consisting of a header line immediately followed by the
blank separator yields a `Sample` with an empty `stack_trace` and no
`last_stack_frame`, and that sample classifies as `NoStackTrace`. -/
theorem C8_empty_trace (a : SampleAnalyzer) (hc : List Char)
    (rest : List Char) (hhc : '\n' ∉ hc) :
    PerfSamples.next ((hc ++ ['\n']) ++ '\n' :: rest) =
      some (⟨hc ++ ['\n'], hc ++ ['\n'], [], none⟩, rest) ∧
    a.classify ⟨hc ++ ['\n'], hc ++ ['\n'], [], none⟩ =
      some SampleCategory.NoStackTrace := by
  constructor
  · have h := next_record_sep hc [] rest hhc (by intro l hl; simp at hl)
    simpa using h
  · rfl

/-- Witness for C8 at the concrete record `"H\n\n"`. -/
theorem C8_empty_trace_witness :
    PerfSamples.next ((strL "H" ++ ['\n']) ++ '\n' :: []) =
      some (⟨strL "H" ++ ['\n'], strL "H" ++ ['\n'], [], none⟩, []) ∧
    SampleAnalyzer.new.classify
      ⟨strL "H" ++ ['\n'], strL "H" ++ ['\n'], [], none⟩ =
      some SampleCategory.NoStackTrace :=
  C8_empty_trace SampleAnalyzer.new (strL "H") [] (by decide)

/-- C9: a final record terminated by end-of-stream instead of a blank-line
separator still parses as a complete `Sample`, bounded exactly as if the
separator had been present; and a `next` whose first line read yields zero
bytes reports end-of-stream (`none`), not an error. -/
theorem C9_eof_final_record (hc : List Char) (body : List (List Char))
    (rest : List Char) (hhc : '\n' ∉ hc) (hbody : LinesOk body) :
    (PerfSamples.next ((hc ++ ['\n']) ++ body.flatten) =
      some (⟨(hc ++ ['\n']) ++ body.flatten, hc ++ ['\n'], body.flatten,
             body.getLast?⟩, []) ∧
     (PerfSamples.next ((hc ++ ['\n']) ++ body.flatten)).map Prod.fst =
       (PerfSamples.next ((hc ++ ['\n']) ++ body.flatten ++
         '\n' :: rest)).map Prod.fst) ∧
    PerfSamples.next [] = none := by
  refine ⟨⟨next_record_eof hc body hhc hbody, ?_⟩, rfl⟩
  rw [next_record_eof hc body hhc hbody,
    next_record_sep hc body rest hhc hbody]
  rfl

/-- Witness for C9 at the concrete final record `"H\nA B C\n"`. -/
theorem C9_eof_final_record_witness :
    (PerfSamples.next ((strL "H" ++ ['\n']) ++ [strL "A B C\n"].flatten) =
      some (⟨(strL "H" ++ ['\n']) ++ [strL "A B C\n"].flatten,
             strL "H" ++ ['\n'], [strL "A B C\n"].flatten,
             [strL "A B C\n"].getLast?⟩, []) ∧
     (PerfSamples.next ((strL "H" ++ ['\n']) ++ [strL "A B C\n"].flatten)).map
         Prod.fst =
       (PerfSamples.next ((strL "H" ++ ['\n']) ++ [strL "A B C\n"].flatten ++
         '\n' :: [])).map Prod.fst) ∧
    PerfSamples.next [] = none :=
  C9_eof_final_record (strL "H") [strL "A B C\n"] [] (by decide)
    (by
      intro l hl
      simp only [List.mem_singleton] at hl
      subst hl
      exact ⟨by decide, strL "A B C", by decide, by decide⟩)
